import Mathlib

/-!
Verification of the freehand-3d-cutout contour editor and extrusion builder.

Shallow embedding of `src/components/ImageEditor.tsx` and the UV remap of
`src/components/ThreeViewer.tsx`.  JavaScript numbers are modelled by exact
rationals (ℚ); `Math.hypot` comparisons are modelled by comparing squared
distances, which is equivalent because `x ↦ x^2` is strictly monotone on
nonnegative reals (`hypot(a,b) < r ↔ a^2 + b^2 < r^2` for `r ≥ 0`).
-/

namespace Cutout

/-- Normalized 2-D point, `{x, y}` in the source (`src/types`). -/
structure Point where
  x : ℚ
  y : ℚ
deriving DecidableEq, Repr

/-- The `dimensions` state of `ImageEditor`:
`{ width, height, scale, offsetX, offsetY }` (render size of the contained
image plus its centering offsets). -/
structure Dims where
  width : ℚ
  height : ℚ
  scale : ℚ
  offsetX : ℚ
  offsetY : ℚ
deriving DecidableEq, Repr

/-- `type ToolType = 'freehand' | 'polygon' | 'move'`. -/
inductive ToolType where
  | freehand
  | polygon
  | move
deriving DecidableEq, Repr

/-- Magnifier widget state `{show, x, y}` (stored as `Option` to model
`null`; the source's `show` field is spelled `isShown` because `show` is a
Lean keyword). -/
structure Magnifier where
  isShown : Bool
  x : ℚ
  y : ℚ
deriving DecidableEq, Repr

/-- Intrinsic image size (the loaded `HTMLImageElement`'s `width`/`height`). -/
structure ImgDims where
  width : ℚ
  height : ℚ
deriving DecidableEq, Repr

/-- `CutoutData` from `src/types`: the frozen artifact handed to the 3-D
viewer by `handleFinish`. -/
structure CutoutData where
  points : List Point
  textureUrl : String
  aspectRatio : ℚ
deriving DecidableEq, Repr

/-- The user-recoverable failure of `handleFinish` (surfaced as an `alert`
in the source). -/
inductive FinishError where
  | IncompleteContour
deriving DecidableEq, Repr

/-- The React state of `ImageEditor` that the pointer handlers read and
write: contour, history stack with cursor, tool, cursor preview, drag
index, stroke flag, viewport fit, magnifier. -/
structure EditorState where
  points : List Point
  history : List (List Point)
  historyStep : ℕ
  tool : ToolType
  cursorPos : Option Point
  draggingPointIndex : Option ℕ
  isDrawing : Bool
  dimensions : Dims
  magnifierState : Option Magnifier
deriving DecidableEq, Repr

/-- `toScreen`: `offset + point · renderSize`. -/
def toScreen (d : Dims) (pt : Point) : Point :=
  ⟨d.offsetX + pt.x * d.width, d.offsetY + pt.y * d.height⟩

/-- `toNormalized`: subtract offset, divide by render size. -/
def toNormalized (d : Dims) (x y : ℚ) : Point :=
  ⟨(x - d.offsetX) / d.width, (y - d.offsetY) / d.height⟩

/-- `Math.max(0, Math.min(1, v))`. -/
def clamp01 (v : ℚ) : ℚ := max 0 (min 1 v)

/-- Per-axis clamping applied in `handlePointerDown`/`handlePointerMove`. -/
def clampPoint (p : Point) : Point := ⟨clamp01 p.x, clamp01 p.y⟩

/-- The normalized point the editor derives from a raw pointer position:
`toNormalized` followed by clamping (the `clamped` local of the handlers). -/
def pointerPoint (d : Dims) (x y : ℚ) : Point := clampPoint (toNormalized d x y)

/-- `saveHistory(newPoints)`: truncate beyond the cursor
(`history.slice(0, historyStep + 1)`), append, move cursor to the tail. -/
def saveHistory (st : EditorState) (newPoints : List Point) : EditorState :=
  let newHistory := st.history.take (st.historyStep + 1) ++ [newPoints]
  { st with history := newHistory, historyStep := newHistory.length - 1 }

/-- A commit in the sense of the spec's `HistoryStack.commit(state)`: the
source always pairs `setPoints(ps)` with `saveHistory(ps)` (polygon
pointer-down, pointer-up after a stroke or drag, clear). -/
def commit (st : EditorState) (ps : List Point) : EditorState :=
  saveHistory { st with points := ps } ps

/-- `handleUndo`: if the cursor is positive, step back and load that
snapshot into the live contour; otherwise do nothing.  (`history[step]` is
always in bounds in reachable states; `getD _ []` models the indexing.) -/
def handleUndo (st : EditorState) : EditorState :=
  if st.historyStep > 0 then
    let step := st.historyStep - 1
    { st with historyStep := step, points := st.history.getD step [] }
  else st

/-- `handleRedo`: if the cursor is before the last index, step forward and
load that snapshot. -/
def handleRedo (st : EditorState) : EditorState :=
  if st.historyStep < st.history.length - 1 then
    let step := st.historyStep + 1
    { st with historyStep := step, points := st.history.getD step [] }
  else st

/-- `handleClear`: empty the contour and commit immediately. -/
def handleClear (st : EditorState) : EditorState :=
  saveHistory { st with points := [] } []

/-- Initial editor state: `useState<Point[]>([])`, `useState([[]])`,
`useState(0)`, tool `freehand`, no cursor/drag/stroke/magnifier, zero
dimensions. -/
def initState : EditorState :=
  { points := []
    history := [[]]
    historyStep := 0
    tool := ToolType.freehand
    cursorPos := none
    draggingPointIndex := none
    isDrawing := false
    dimensions := ⟨0, 0, 1, 0, 0⟩
    magnifierState := none }

/-- Squared screen-space distance from the click `(x, y)` to contour point
`p`, i.e. the square of `Math.hypot(screenP.x - x, screenP.y - y)`. -/
def hitD2 (d : Dims) (x y : ℚ) (p : Point) : ℚ :=
  ((toScreen d p).x - x) ^ 2 + ((toScreen d p).y - y) ^ 2

/-- The `points.forEach` scan of the move-tool branch of
`handlePointerDown`: running minimum (squared) distance, replaced only on
strict improvement, seeded with the 30 px hit radius (`900 = 30^2`). -/
def hitScan (d : Dims) (x y : ℚ) :
    List Point → ℕ → ℚ → Option ℕ → Option ℕ × ℚ
  | [], _, minD2, found => (found, minD2)
  | p :: ps, i, minD2, found =>
    if hitD2 d x y p < minD2 then hitScan d x y ps (i + 1) (hitD2 d x y p) (some i)
    else hitScan d x y ps (i + 1) minD2 found

/-- The index selected by move-tool hit-testing (`foundIndex`, with `-1`
modelled as `none`). -/
def nearestIdx (d : Dims) (x y : ℚ) (pts : List Point) : Option ℕ :=
  (hitScan d x y pts 0 900 none).1

/-- `handlePointerDown`. -/
def handlePointerDown (st : EditorState) (x y : ℚ) : EditorState :=
  let clamped := pointerPoint st.dimensions x y
  match st.tool with
  | ToolType.move =>
    match nearestIdx st.dimensions x y st.points with
    | some i =>
      { st with draggingPointIndex := some i,
                magnifierState := some ⟨true, x, y⟩ }
    | none => st
  | ToolType.freehand =>
    { st with isDrawing := true,
              points := st.points ++ [clamped],
              magnifierState := some ⟨true, x, y⟩ }
  | ToolType.polygon =>
    let newPoints := st.points ++ [clamped]
    saveHistory { st with points := newPoints,
                          magnifierState := some ⟨true, x, y⟩ } newPoints

/-- Squared screen-space gap used by the freehand decimation filter:
`dx = (b.x - a.x) * width`, `dy = (b.y - a.y) * height`, gap `= dx² + dy²`. -/
def strokeGapSq (d : Dims) (a b : Point) : ℚ :=
  ((b.x - a.x) * d.width) ^ 2 + ((b.y - a.y) * d.height) ^ 2

/-- The `setPoints(prev => ...)` updater of the freehand branch of
`handlePointerMove`: append only when the squared screen gap from the last
point exceeds 10. -/
def freehandFilter (d : Dims) (clamped : Point) (prev : List Point) : List Point :=
  if h : prev = [] then [clamped]
  else
    if strokeGapSq d (prev.getLast h) clamped > 10 then prev ++ [clamped]
    else prev

/-- `handlePointerMove`. -/
def handlePointerMove (st : EditorState) (x y : ℚ) : EditorState :=
  let clamped := pointerPoint st.dimensions x y
  let st1 := { st with cursorPos := some clamped }
  match st1.tool with
  | ToolType.move =>
    match st1.draggingPointIndex with
    | some i =>
      { st1 with points := st1.points.set i clamped,
                 magnifierState := some ⟨true, x, y⟩ }
    | none => st1
  | ToolType.freehand =>
    if st1.isDrawing then
      { st1 with points := freehandFilter st1.dimensions clamped st1.points,
                 magnifierState := some ⟨true, x, y⟩ }
    else st1
  | ToolType.polygon =>
    { st1 with magnifierState := some ⟨true, x, y⟩ }

/-- `handlePointerUp`. -/
def handlePointerUp (st : EditorState) : EditorState :=
  let st1 :=
    if st.tool = ToolType.freehand ∧ st.isDrawing then
      saveHistory { st with isDrawing := false, magnifierState := none } st.points
    else if st.tool = ToolType.move ∧ st.draggingPointIndex ≠ none then
      saveHistory { st with draggingPointIndex := none, magnifierState := none } st.points
    else st
  if st1.tool = ToolType.polygon then { st1 with magnifierState := none } else st1

/-- `onPointerLeave`: `handlePointerUp(); setCursorPos(null);`. -/
def handlePointerLeave (st : EditorState) : EditorState :=
  { handlePointerUp st with cursorPos := none }

/-- `handleFinish`: guard on fewer than 3 points (alert and return, no
state update on either path — the pair's first component records that the
editor state is untouched), else freeze `CutoutData` with
`aspectRatio = imageElement ? width / height : 1`. -/
def handleFinish (st : EditorState) (imageUrl : String)
    (imageElement : Option ImgDims) : EditorState × Except FinishError CutoutData :=
  if st.points.length < 3 then (st, Except.error FinishError.IncompleteContour)
  else
    (st, Except.ok
      { points := st.points
        textureUrl := imageUrl
        aspectRatio :=
          match imageElement with
          | some img => img.width / img.height
          | none => 1 })

/-- A sequence of pointer-move events (raw device coordinates) folded
through `handlePointerMove`. -/
def runMoves (st : EditorState) (evs : List (ℚ × ℚ)) : EditorState :=
  evs.foldl (fun s e => handlePointerMove s e.1 e.2) st

/-! ### ExtrusionBuilder (`ThreeViewer.tsx`) -/

/-- The fixed world scale (`const scale = 5`). -/
def worldScale : ℚ := 5

/-- The forward map of the `shape` memo: normalized point to planar shape
coordinates, flipping y. -/
def toPlanar (aspect : ℚ) (p : Point) : Point :=
  ⟨(p.x - 1/2) * worldScale * aspect, -((p.y - 1/2) * worldScale)⟩

/-- The UV remap loop of the `geometry` memo:
`u = x/(scale·aspect) + 0.5`, `v = 1 - (-(y/scale) + 0.5)`. -/
def remapUV (aspect : ℚ) (x y : ℚ) : ℚ × ℚ :=
  (x / (worldScale * aspect) + 1/2, 1 - (-(y / worldScale) + 1/2))

/-! ## Theorems -/

/-- **C6**: For every pointer input, including device coordinates outside
the rendered image area, the normalized point derived by the editor
(`toNormalized` then clamping) lies in `[0,1] × [0,1]`. -/
theorem pointerPoint_in_unit_square (d : Dims) (x y : ℚ) :
    0 ≤ (pointerPoint d x y).x ∧ (pointerPoint d x y).x ≤ 1 ∧
    0 ≤ (pointerPoint d x y).y ∧ (pointerPoint d x y).y ≤ 1 := by
  refine ⟨le_max_left _ _, ?_, le_max_left _ _, ?_⟩ <;>
    exact max_le (by norm_num) (min_le_left _ _)

/-- **C7**: For every viewport fit with nonzero render width and height and
every point `p`, `toNormalized (toScreen p)` returns `p` exactly. -/
theorem toNormalized_toScreen (d : Dims) (p : Point)
    (hw : d.width ≠ 0) (hh : d.height ≠ 0) :
    toNormalized d (toScreen d p).x (toScreen d p).y = p := by
  simp only [toScreen, toNormalized]
  cases p with
  | mk px py =>
    congr 1 <;> field_simp

/-- Witness for `toNormalized_toScreen` at a concrete fit and point. -/
theorem toNormalized_toScreen_witness :
    (⟨400, 200, 1/2, 40, 30⟩ : Dims).width ≠ 0 ∧
    (⟨400, 200, 1/2, 40, 30⟩ : Dims).height ≠ 0 ∧
    toNormalized ⟨400, 200, 1/2, 40, 30⟩
      (toScreen ⟨400, 200, 1/2, 40, 30⟩ ⟨1/4, 3/4⟩).x
      (toScreen ⟨400, 200, 1/2, 40, 30⟩ ⟨1/4, 3/4⟩).y = ⟨1/4, 3/4⟩ :=
  ⟨by norm_num, by norm_num,
    toNormalized_toScreen ⟨400, 200, 1/2, 40, 30⟩ ⟨1/4, 3/4⟩ (by norm_num) (by norm_num)⟩

/-- **C1**: the UV remap is the exact inverse of the planar map: a vertex
whose planar position comes from normalized point `p` receives UV
`(p.x, 1 - p.y)`; in particular `(0.25, 0.25)` with aspect `2` receives
`(0.25, 0.75)`. -/
theorem remapUV_toPlanar (aspect : ℚ) (p : Point) (ha : aspect ≠ 0) :
    remapUV aspect (toPlanar aspect p).x (toPlanar aspect p).y = (p.x, 1 - p.y) := by
  simp only [remapUV, toPlanar, worldScale]
  congr 1 <;> field_simp <;> ring

/-- Witness for `remapUV_toPlanar`: aspect `2`, normalized point
`(0.25, 0.25)`, UV `(0.25, 0.75)`. -/
theorem remapUV_toPlanar_witness :
    (2 : ℚ) ≠ 0 ∧
    remapUV 2 (toPlanar 2 ⟨1/4, 1/4⟩).x (toPlanar 2 ⟨1/4, 1/4⟩).y = (1/4, 3/4) :=
  ⟨by norm_num, by
    have h := remapUV_toPlanar 2 ⟨1/4, 1/4⟩ (by norm_num)
    rw [h]
    norm_num⟩

/-- **C2**: undo at cursor 0 is a no-op, redo at the tail is a no-op,
commit truncates beyond the cursor and appends moving the cursor to the new
tail, and `commit A; commit B; undo; commit C` from the initial state
yields history `[[], A, C]` with the cursor at `C` and redo a no-op. -/
theorem history_contract (s : EditorState) (A B C : List Point) :
    (s.historyStep = 0 → handleUndo s = s) ∧
    (s.historyStep = s.history.length - 1 → handleRedo s = s) ∧
    ((commit s A).history = s.history.take (s.historyStep + 1) ++ [A] ∧
     (commit s A).historyStep = (s.history.take (s.historyStep + 1) ++ [A]).length - 1 ∧
     (commit s A).points = A) ∧
    ((commit (handleUndo (commit (commit initState A) B)) C).history = [[], A, C] ∧
     (commit (handleUndo (commit (commit initState A) B)) C).historyStep = 2 ∧
     (commit (handleUndo (commit (commit initState A) B)) C).points = C ∧
     handleRedo (commit (handleUndo (commit (commit initState A) B)) C) =
       commit (handleUndo (commit (commit initState A) B)) C) := by
  refine ⟨fun h => ?_, fun h => ?_, ⟨rfl, rfl, rfl⟩, rfl, rfl, rfl, rfl⟩
  · simp [handleUndo, h]
  · simp [handleRedo, h]

/-- Witness for `history_contract`: undo from the initial state (cursor 0)
changes nothing. -/
theorem history_contract_witness :
    initState.historyStep = 0 ∧ handleUndo initState = initState :=
  ⟨rfl, (history_contract initState [] [] []).1 rfl⟩

/-- **C3**: `Finish` on a contour with fewer than 3 points fails with
`IncompleteContour` and leaves the editor state untouched; on 3 or more
points with the image loaded it succeeds with exactly the current contour
and the intrinsic aspect ratio `width / height`. -/
theorem finish_guard (st : EditorState) (url : String) (img : Option ImgDims) :
    (st.points.length < 3 →
      handleFinish st url img = (st, Except.error FinishError.IncompleteContour)) ∧
    (3 ≤ st.points.length → ∀ iw ih : ℚ, img = some ⟨iw, ih⟩ →
      handleFinish st url img = (st, Except.ok ⟨st.points, url, iw / ih⟩)) := by
  constructor
  · intro h
    simp [handleFinish, h]
  · intro h iw ih himg
    subst himg
    simp [handleFinish, Nat.not_lt.mpr h]

/-- Witness for `finish_guard`: a 3-point contour with an 800×400 image
finishes with aspect ratio 2. -/
theorem finish_guard_witness :
    3 ≤ (⟨[⟨1/4, 1/4⟩, ⟨3/4, 1/4⟩, ⟨1/2, 3/4⟩], [[]], 0, ToolType.freehand,
          none, none, false, ⟨0, 0, 1, 0, 0⟩, none⟩ : EditorState).points.length ∧
    handleFinish ⟨[⟨1/4, 1/4⟩, ⟨3/4, 1/4⟩, ⟨1/2, 3/4⟩], [[]], 0, ToolType.freehand,
          none, none, false, ⟨0, 0, 1, 0, 0⟩, none⟩ "img" (some ⟨800, 400⟩) =
      (⟨[⟨1/4, 1/4⟩, ⟨3/4, 1/4⟩, ⟨1/2, 3/4⟩], [[]], 0, ToolType.freehand,
          none, none, false, ⟨0, 0, 1, 0, 0⟩, none⟩,
       Except.ok ⟨[⟨1/4, 1/4⟩, ⟨3/4, 1/4⟩, ⟨1/2, 3/4⟩], "img", 800 / 400⟩) :=
  ⟨by norm_num,
    (finish_guard _ "img" (some ⟨800, 400⟩)).2 (by norm_num) 800 400 rfl⟩

/-- **C10**: `Finish` with at least 3 points but no loaded image element
still succeeds, with `aspectRatio = 1`. -/
theorem finish_no_image (st : EditorState) (url : String)
    (h : 3 ≤ st.points.length) :
    handleFinish st url none = (st, Except.ok ⟨st.points, url, 1⟩) := by
  simp [handleFinish, Nat.not_lt.mpr h]

/-- Witness for `finish_no_image` on a concrete 3-point contour. -/
theorem finish_no_image_witness :
    3 ≤ (⟨[⟨0, 0⟩, ⟨1, 0⟩, ⟨1, 1⟩], [[]], 0, ToolType.polygon,
          none, none, false, ⟨0, 0, 1, 0, 0⟩, none⟩ : EditorState).points.length ∧
    handleFinish ⟨[⟨0, 0⟩, ⟨1, 0⟩, ⟨1, 1⟩], [[]], 0, ToolType.polygon,
          none, none, false, ⟨0, 0, 1, 0, 0⟩, none⟩ "img" none =
      (⟨[⟨0, 0⟩, ⟨1, 0⟩, ⟨1, 1⟩], [[]], 0, ToolType.polygon,
          none, none, false, ⟨0, 0, 1, 0, 0⟩, none⟩,
       Except.ok ⟨[⟨0, 0⟩, ⟨1, 0⟩, ⟨1, 1⟩], "img", 1⟩) :=
  ⟨by norm_num, finish_no_image _ "img" (by norm_num)⟩

/-- A concrete mid-stroke freehand state used by witnesses. -/
def strokeState : EditorState :=
  { points := [⟨1/2, 1/2⟩]
    history := [[]]
    historyStep := 0
    tool := ToolType.freehand
    cursorPos := none
    draggingPointIndex := none
    isDrawing := true
    dimensions := ⟨100, 100, 1, 0, 0⟩
    magnifierState := some ⟨true, 50, 50⟩ }

/-- **C8**: pointer-leave has exactly the effect of pointer-up on contour,
history, cursor index, stroke/drag flags and magnifier; in particular an
active freehand stroke or move drag is committed to history as one step and
its transient state cleared — never abandoned uncommitted. -/
theorem leave_eq_up (st : EditorState) :
    ((handlePointerLeave st).points = (handlePointerUp st).points ∧
     (handlePointerLeave st).history = (handlePointerUp st).history ∧
     (handlePointerLeave st).historyStep = (handlePointerUp st).historyStep ∧
     (handlePointerLeave st).isDrawing = (handlePointerUp st).isDrawing ∧
     (handlePointerLeave st).draggingPointIndex = (handlePointerUp st).draggingPointIndex ∧
     (handlePointerLeave st).magnifierState = (handlePointerUp st).magnifierState ∧
     (handlePointerLeave st).tool = (handlePointerUp st).tool) ∧
    (st.tool = ToolType.freehand → st.isDrawing = true →
      (handlePointerLeave st).history = st.history.take (st.historyStep + 1) ++ [st.points] ∧
      (handlePointerLeave st).points = st.points ∧
      (handlePointerLeave st).isDrawing = false ∧
      (handlePointerLeave st).magnifierState = none) ∧
    (st.tool = ToolType.move → st.draggingPointIndex ≠ none →
      (handlePointerLeave st).history = st.history.take (st.historyStep + 1) ++ [st.points] ∧
      (handlePointerLeave st).points = st.points ∧
      (handlePointerLeave st).draggingPointIndex = none ∧
      (handlePointerLeave st).magnifierState = none) := by
  refine ⟨⟨rfl, rfl, rfl, rfl, rfl, rfl, rfl⟩, fun ht hd => ?_, fun ht hd => ?_⟩
  · simp [handlePointerLeave, handlePointerUp, saveHistory, ht, hd]
  · simp [handlePointerLeave, handlePointerUp, saveHistory, ht, hd]

/-- Witness for `leave_eq_up`: leaving the surface mid-stroke commits the
in-flight contour. -/
theorem leave_eq_up_witness :
    strokeState.tool = ToolType.freehand ∧ strokeState.isDrawing = true ∧
    (handlePointerLeave strokeState).history =
      strokeState.history.take (strokeState.historyStep + 1) ++ [strokeState.points] ∧
    (handlePointerLeave strokeState).points = strokeState.points ∧
    (handlePointerLeave strokeState).isDrawing = false ∧
    (handlePointerLeave strokeState).magnifierState = none :=
  ⟨rfl, rfl, (leave_eq_up strokeState).2.1 rfl rfl⟩

/-- One-step unfolding of `hitScan` on a cons cell. -/
theorem hitScan_cons (d : Dims) (x y : ℚ) (p : Point) (ps : List Point)
    (i : ℕ) (m : ℚ) (f : Option ℕ) :
    hitScan d x y (p :: ps) i m f =
      if hitD2 d x y p < m then hitScan d x y ps (i + 1) (hitD2 d x y p) (some i)
      else hitScan d x y ps (i + 1) m f := rfl

/-- Invariant of the running-minimum scan: either no element beats the
incoming bound `m` (accumulator returned unchanged), or the scan returns
the first index attaining the minimum distance, which is strictly below
`m`, strictly below every earlier element, and at most every element. -/
theorem hitScan_spec (d : Dims) (x y : ℚ) (l : List Point) :
    ∀ (i : ℕ) (m : ℚ) (f : Option ℕ),
      (hitScan d x y l i m f = (f, m) ∧ ∀ q ∈ l, m ≤ hitD2 d x y q) ∨
      (∃ (k : ℕ) (hk : k < l.length),
        hitScan d x y l i m f = (some (i + k), hitD2 d x y (l.get ⟨k, hk⟩)) ∧
        hitD2 d x y (l.get ⟨k, hk⟩) < m ∧
        (∀ q ∈ l.take k, hitD2 d x y (l.get ⟨k, hk⟩) < hitD2 d x y q) ∧
        (∀ q ∈ l, hitD2 d x y (l.get ⟨k, hk⟩) ≤ hitD2 d x y q)) := by
  induction l with
  | nil =>
    intro i m f
    left
    exact ⟨rfl, by simp⟩
  | cons p ps ih =>
    intro i m f
    by_cases h : hitD2 d x y p < m
    · rcases ih (i + 1) (hitD2 d x y p) (some i) with
        ⟨heq, hall⟩ | ⟨k, hk, heq, hlt, hpre, hall⟩
      · right
        refine ⟨0, Nat.succ_pos _, ?_, ?_, ?_, ?_⟩
        · rw [hitScan_cons, if_pos h, heq]
          simp
        · simpa using h
        · intro q hq
          simp at hq
        · intro q hq
          rcases List.mem_cons.mp hq with rfl | hq'
          · simp
          · simpa using hall q hq'
      · right
        refine ⟨k + 1, Nat.succ_lt_succ hk, ?_, ?_, ?_, ?_⟩
        · rw [hitScan_cons, if_pos h, heq]
          simp only [List.get_cons_succ, Prod.mk.injEq, Option.some.injEq]
          exact ⟨by omega, trivial⟩
        · simp only [List.get_cons_succ]
          exact lt_trans hlt h
        · intro q hq
          rw [List.take_succ_cons] at hq
          rcases List.mem_cons.mp hq with rfl | hq'
          · simpa using hlt
          · simpa using hpre q hq'
        · intro q hq
          rcases List.mem_cons.mp hq with rfl | hq'
          · simpa using le_of_lt hlt
          · simpa using hall q hq'
    · rcases ih (i + 1) m f with
        ⟨heq, hall⟩ | ⟨k, hk, heq, hlt, hpre, hall⟩
      · left
        refine ⟨?_, ?_⟩
        · rw [hitScan_cons, if_neg h, heq]
        · intro q hq
          rcases List.mem_cons.mp hq with rfl | hq'
          · exact not_lt.mp h
          · exact hall q hq'
      · right
        have hm : m ≤ hitD2 d x y p := not_lt.mp h
        refine ⟨k + 1, Nat.succ_lt_succ hk, ?_, ?_, ?_, ?_⟩
        · rw [hitScan_cons, if_neg h, heq]
          simp only [List.get_cons_succ, Prod.mk.injEq, Option.some.injEq]
          exact ⟨by omega, trivial⟩
        · simpa using hlt
        · intro q hq
          rw [List.take_succ_cons] at hq
          rcases List.mem_cons.mp hq with rfl | hq'
          · simpa using lt_of_lt_of_le hlt hm
          · simpa using hpre q hq'
        · intro q hq
          rcases List.mem_cons.mp hq with rfl | hq'
          · simpa using le_of_lt (lt_of_lt_of_le hlt hm)
          · simpa using hall q hq'

/-- **C5**: move-tool hit-testing returns the index of the minimum-distance
contour point strictly within the 30 px radius (squared: 900), breaking
ties toward the lower index (every earlier point is strictly farther), and
returns nothing when no point is strictly within the radius. -/
theorem move_hit_testing (d : Dims) (x y : ℚ) (pts : List Point) :
    ((∃ q ∈ pts, hitD2 d x y q < 900) → ∃ i, nearestIdx d x y pts = some i) ∧
    ((∀ q ∈ pts, 900 ≤ hitD2 d x y q) → nearestIdx d x y pts = none) ∧
    (∀ i : ℕ, nearestIdx d x y pts = some i →
      ∃ hi : i < pts.length,
        hitD2 d x y (pts.get ⟨i, hi⟩) < 900 ∧
        (∀ q ∈ pts, hitD2 d x y (pts.get ⟨i, hi⟩) ≤ hitD2 d x y q) ∧
        (∀ q ∈ pts.take i, hitD2 d x y (pts.get ⟨i, hi⟩) < hitD2 d x y q)) := by
  rcases hitScan_spec d x y pts 0 900 none with
    ⟨heq, hall⟩ | ⟨k, hk, heq, hlt, hpre, hall⟩
  · refine ⟨?_, ?_, ?_⟩
    · rintro ⟨q, hq, hqlt⟩
      exact absurd (hall q hq) (not_le.mpr hqlt)
    · intro _
      simp [nearestIdx, heq]
    · intro i hi
      rw [nearestIdx, heq] at hi
      simp at hi
  · have hres : nearestIdx d x y pts = some k := by
      simp [nearestIdx, heq]
    refine ⟨?_, ?_, ?_⟩
    · intro _
      exact ⟨k, hres⟩
    · intro hfar
      exact absurd hlt (not_lt.mpr (hfar _ (pts.get_mem _ _)))
    · intro i hi
      rw [hres] at hi
      have hik : i = k := by
        simpa using hi.symm
      subst hik
      exact ⟨hk, hlt, hall, hpre⟩

/-- Witness for `move_hit_testing`: two coincident points at squared
distance 200 from the click and one far point — a point within the radius
exists, so an index is selected. -/
theorem move_hit_testing_witness :
    (∃ q ∈ [(⟨0, 0⟩ : Point), ⟨0, 0⟩, ⟨1, 1⟩],
        hitD2 ⟨100, 100, 1, 0, 0⟩ 10 10 q < 900) ∧
    (∃ i, nearestIdx ⟨100, 100, 1, 0, 0⟩ 10 10
        [(⟨0, 0⟩ : Point), ⟨0, 0⟩, ⟨1, 1⟩] = some i) :=
  ⟨⟨⟨0, 0⟩, by simp, by norm_num [hitD2, toScreen]⟩,
    (move_hit_testing ⟨100, 100, 1, 0, 0⟩ 10 10 [⟨0, 0⟩, ⟨0, 0⟩, ⟨1, 1⟩]).1
      ⟨⟨0, 0⟩, by simp, by norm_num [hitD2, toScreen]⟩⟩

/-- Fold the freehand decimation filter over a list of already-clamped
normalized points (the successive `setPoints` updater applications of a
stroke). -/
def foldFilter (d : Dims) (prev : List Point) (cs : List Point) : List Point :=
  cs.foldl (fun acc c => freehandFilter d c acc) prev

/-- Every consecutive pair is strictly below the decimation threshold
(squared screen gap < 10): a dense drag. -/
def chainLt (d : Dims) : List Point → Bool
  | [] => true
  | [_] => true
  | a :: b :: t => decide (strokeGapSq d a b < 10) && chainLt d (b :: t)

theorem chainLt_cons (d : Dims) (a b : Point) (t : List Point) :
    chainLt d (a :: b :: t) = true ↔
      strokeGapSq d a b < 10 ∧ chainLt d (b :: t) = true := by
  simp [chainLt]

theorem chainLt_tail (d : Dims) (a : Point) (l : List Point)
    (h : chainLt d (a :: l) = true) : chainLt d l = true := by
  cases l with
  | nil => rfl
  | cons b t => exact ((chainLt_cons d a b t).mp h).2

theorem freehandFilter_eq_append (d : Dims) (c : Point) (prev : List Point)
    (h : prev ≠ []) (hgap : strokeGapSq d (prev.getLast h) c > 10) :
    freehandFilter d c prev = prev ++ [c] := by
  rw [freehandFilter, dif_neg h, if_pos hgap]

theorem freehandFilter_eq_self (d : Dims) (c : Point) (prev : List Point)
    (h : prev ≠ []) (hgap : ¬ strokeGapSq d (prev.getLast h) c > 10) :
    freehandFilter d c prev = prev := by
  rw [freehandFilter, dif_neg h, if_neg hgap]

theorem foldFilter_cons (d : Dims) (prev : List Point) (c : Point)
    (cs : List Point) :
    foldFilter d prev (c :: cs) = foldFilter d (freehandFilter d c prev) cs := rfl

/-- Core decimation bound: folding the filter over a dense chain appends at
most `cs.length` points, and at most `cs.length - 1` when the chain is
anchored at the last already-appended point (the first event of the chain
can never pass the threshold). -/
theorem foldFilter_bound (d : Dims) :
    ∀ (cs : List Point) (prev : List Point),
      (chainLt d cs = true →
        (foldFilter d prev cs).length ≤ prev.length + cs.length) ∧
      (∀ h : prev ≠ [], chainLt d (prev.getLast h :: cs) = true →
        (foldFilter d prev cs).length ≤ prev.length + (cs.length - 1)) := by
  intro cs
  induction cs with
  | nil =>
    intro prev
    refine ⟨fun _ => ?_, fun h _ => ?_⟩ <;> simp [foldFilter]
  | cons c cs ih =>
    intro prev
    constructor
    · intro hchain
      by_cases hp : prev = []
      · subst hp
        have hstep : foldFilter d [] (c :: cs) = foldFilter d [c] cs := by
          rw [foldFilter_cons, freehandFilter]
          simp
        rw [hstep]
        have h1 : ([c] : List Point) ≠ [] := by simp
        have hsync := (ih [c]).2 h1 (by simpa [List.getLast] using hchain)
        simp only [List.length_cons, List.length_singleton, List.length_nil] at *
        omega
      · by_cases hgap : strokeGapSq d (prev.getLast hp) c > 10
        · rw [foldFilter_cons, freehandFilter_eq_append d c prev hp hgap]
          have h2 : prev ++ [c] ≠ [] := by simp
          have hlast : (prev ++ [c]).getLast h2 = c := by
            simp [List.getLast_append]
          have hsync := (ih (prev ++ [c])).2 h2 (by rw [hlast]; exact hchain)
          simp only [List.length_append, List.length_singleton, List.length_cons,
            List.length_nil] at *
          omega
        · rw [foldFilter_cons, freehandFilter_eq_self d c prev hp hgap]
          have hrest := (ih prev).1 (chainLt_tail d c cs hchain)
          simp only [List.length_cons] at *
          omega
    · intro hp hchain
      obtain ⟨hgap, hrest⟩ := (chainLt_cons d _ c cs).mp hchain
      have hng : ¬ strokeGapSq d (prev.getLast hp) c > 10 := by linarith
      rw [foldFilter_cons, freehandFilter_eq_self d c prev hp hng]
      have hb := (ih prev).1 (chainLt_tail d c cs hrest)
      simp only [List.length_cons] at *
      omega

/-- One freehand move step with the stroke active: the contour goes through
the decimation filter, and tool, stroke flag and dimensions are unchanged. -/
theorem handlePointerMove_freehand (st : EditorState) (x y : ℚ)
    (ht : st.tool = ToolType.freehand) (hdraw : st.isDrawing = true) :
    (handlePointerMove st x y).points =
      freehandFilter st.dimensions (pointerPoint st.dimensions x y) st.points ∧
    (handlePointerMove st x y).tool = ToolType.freehand ∧
    (handlePointerMove st x y).isDrawing = true ∧
    (handlePointerMove st x y).dimensions = st.dimensions := by
  simp [handlePointerMove, ht, hdraw]

/-- A freehand stroke's pointer-move events reduce to folding the
decimation filter over the clamped event positions. -/
theorem runMoves_freehand (d : Dims) :
    ∀ (evs : List (ℚ × ℚ)) (st : EditorState),
      st.tool = ToolType.freehand → st.isDrawing = true → st.dimensions = d →
      (runMoves st evs).points =
        foldFilter d st.points (evs.map fun e => pointerPoint d e.1 e.2) ∧
      (runMoves st evs).tool = ToolType.freehand ∧
      (runMoves st evs).isDrawing = true ∧
      (runMoves st evs).dimensions = d := by
  intro evs
  induction evs with
  | nil =>
    intro st ht hdraw hdim
    exact ⟨rfl, ht, hdraw, hdim⟩
  | cons e evs ih =>
    intro st ht hdraw hdim
    obtain ⟨hp, ht', hdraw', hdim'⟩ := handlePointerMove_freehand st e.1 e.2 ht hdraw
    have hrun : runMoves st (e :: evs) = runMoves (handlePointerMove st e.1 e.2) evs := rfl
    obtain ⟨ihp, iht, ihd, ihdim⟩ :=
      ih (handlePointerMove st e.1 e.2) ht' hdraw' (hdim'.trans hdim)
    refine ⟨?_, by rw [hrun]; exact iht, by rw [hrun]; exact ihd, by rw [hrun]; exact ihdim⟩
    rw [hrun, ihp, List.map_cons, foldFilter_cons, hp, hdim]

/-- **C4**: during an active freehand stroke with a nonempty contour, a
pointer-move appends its clamped point iff the squared screen gap from the
last appended point exceeds 10, and otherwise leaves the contour unchanged;
consequently a dense drag (consecutive positions, anchored at the last
appended point, all below the threshold) appends strictly fewer points than
it has move events. -/
theorem freehand_decimation (st : EditorState) (x y : ℚ) (evs : List (ℚ × ℚ))
    (ht : st.tool = ToolType.freehand) (hdraw : st.isDrawing = true)
    (hne : st.points ≠ []) :
    ((handlePointerMove st x y).points =
        st.points ++ [pointerPoint st.dimensions x y] ↔
      strokeGapSq st.dimensions (st.points.getLast hne)
        (pointerPoint st.dimensions x y) > 10) ∧
    (¬ strokeGapSq st.dimensions (st.points.getLast hne)
        (pointerPoint st.dimensions x y) > 10 →
      (handlePointerMove st x y).points = st.points) ∧
    (evs ≠ [] →
      chainLt st.dimensions (st.points.getLast hne ::
        evs.map fun e => pointerPoint st.dimensions e.1 e.2) = true →
      (runMoves st evs).points.length < st.points.length + evs.length) := by
  obtain ⟨hp, -, -, -⟩ := handlePointerMove_freehand st x y ht hdraw
  refine ⟨?_, ?_, ?_⟩
  · rw [hp]
    by_cases hgap : strokeGapSq st.dimensions (st.points.getLast hne)
        (pointerPoint st.dimensions x y) > 10
    · rw [freehandFilter_eq_append _ _ _ hne hgap]
      exact iff_of_true rfl hgap
    · rw [freehandFilter_eq_self _ _ _ hne hgap]
      refine iff_of_false (fun hcontra => ?_) hgap
      have := congrArg List.length hcontra
      simp at this
  · intro hgap
    rw [hp, freehandFilter_eq_self _ _ _ hne hgap]
  · intro hevs hchain
    obtain ⟨hpts, -, -, -⟩ := runMoves_freehand st.dimensions evs st ht hdraw rfl
    rw [hpts]
    have hb0 := foldFilter_bound st.dimensions
        (evs.map fun e => pointerPoint st.dimensions e.1 e.2) st.points
    have hb := hb0.2 hne hchain
    have hlen : (evs.map fun e => pointerPoint st.dimensions e.1 e.2).length = evs.length :=
      List.length_map _ _
    have hpos : 0 < evs.length := List.length_pos.mpr hevs
    omega

/-- Witness for `freehand_decimation`: one dense move event 1 px² from the
stroke's last point appends nothing, so 0 < 1 move events append. -/
theorem freehand_decimation_witness :
    strokeState.tool = ToolType.freehand ∧ strokeState.isDrawing = true ∧
    strokeState.points ≠ [] ∧
    ([((51 : ℚ), (50 : ℚ))] ≠ ([] : List (ℚ × ℚ))) ∧
    chainLt strokeState.dimensions
      [⟨1/2, 1/2⟩, pointerPoint strokeState.dimensions 51 50] = true ∧
    (runMoves strokeState [(51, 50)]).points.length <
      strokeState.points.length + [((51 : ℚ), (50 : ℚ))].length := by
  have hne : strokeState.points ≠ [] := by simp [strokeState]
  have hpp : pointerPoint strokeState.dimensions 51 50 = ⟨51/100, 1/2⟩ := by
    simp only [strokeState, pointerPoint, toNormalized, clampPoint, clamp01,
      Point.mk.injEq]
    norm_num [min_def, max_def]
  have hchain : chainLt strokeState.dimensions
      [⟨1/2, 1/2⟩, pointerPoint strokeState.dimensions 51 50] = true := by
    rw [hpp]
    simp only [chainLt, strokeGapSq, strokeState, Bool.and_true, Bool.and_eq_true,
      decide_eq_true_eq]
    norm_num
  refine ⟨rfl, rfl, hne, by simp, hchain, ?_⟩
  exact (freehand_decimation strokeState 51 50 [(51, 50)] rfl rfl hne).2.2
    (by simp) hchain

/-- Pointer-up with the move tool and no recorded drag index changes
nothing: the freehand branch needs the freehand tool, the move branch needs
a drag index, and the polygon branch needs the polygon tool. -/
theorem up_move_idle (s : EditorState) (ht : s.tool = ToolType.move)
    (hd : s.draggingPointIndex = none) : handlePointerUp s = s := by
  simp [handlePointerUp, ht, hd]

/-- With the move tool and no recorded drag index, pointer-moves only
update the cursor preview: contour, history, cursor index, tool, drag
index, stroke flag and magnifier are untouched. -/
theorem runMoves_move_idle :
    ∀ (evs : List (ℚ × ℚ)) (s : EditorState),
      s.tool = ToolType.move → s.draggingPointIndex = none →
      (runMoves s evs).points = s.points ∧
      (runMoves s evs).history = s.history ∧
      (runMoves s evs).historyStep = s.historyStep ∧
      (runMoves s evs).tool = ToolType.move ∧
      (runMoves s evs).draggingPointIndex = none := by
  intro evs
  induction evs with
  | nil =>
    intro s ht hd
    exact ⟨rfl, rfl, rfl, ht, hd⟩
  | cons e evs ih =>
    intro s ht hd
    have hstep : handlePointerMove s e.1 e.2 =
        { s with cursorPos := some (pointerPoint s.dimensions e.1 e.2) } := by
      simp [handlePointerMove, ht, hd]
    have hrun : runMoves s (e :: evs) = runMoves (handlePointerMove s e.1 e.2) evs := rfl
    obtain ⟨h1, h2, h3, h4, h5⟩ :=
      ih (handlePointerMove s e.1 e.2) (by rw [hstep]; exact ht) (by rw [hstep]; exact hd)
    rw [hrun, hstep] at *
    exact ⟨h1, h2, h3, h4, h5⟩

/-- **C9**: in move mode, if pointer-down finds no contour point strictly
within 30 px (squared: 900) of the click, the state is unchanged (no drag
index recorded), any following pointer-moves leave contour and history
unchanged, and pointer-up commits nothing. -/
theorem move_miss_frame (st : EditorState) (x y : ℚ) (evs : List (ℚ × ℚ))
    (ht : st.tool = ToolType.move) (hdrag : st.draggingPointIndex = none)
    (hmiss : ∀ q ∈ st.points, 900 ≤ hitD2 st.dimensions x y q) :
    handlePointerDown st x y = st ∧
    (runMoves (handlePointerDown st x y) evs).points = st.points ∧
    (runMoves (handlePointerDown st x y) evs).history = st.history ∧
    (runMoves (handlePointerDown st x y) evs).historyStep = st.historyStep ∧
    (runMoves (handlePointerDown st x y) evs).draggingPointIndex = none ∧
    handlePointerUp (runMoves (handlePointerDown st x y) evs) =
      runMoves (handlePointerDown st x y) evs := by
  have hnone : nearestIdx st.dimensions x y st.points = none := by
    rcases hitScan_spec st.dimensions x y st.points 0 900 none with
      ⟨heq, -⟩ | ⟨k, hk, heq, hlt, -, -⟩
    · simp [nearestIdx, heq]
    · exact absurd hlt (not_lt.mpr (hmiss _ (st.points.get_mem _ _)))
  have hdown : handlePointerDown st x y = st := by
    simp [handlePointerDown, ht, hnone]
  rw [hdown]
  obtain ⟨h1, h2, h3, h4, h5⟩ := runMoves_move_idle evs st ht hdrag
  exact ⟨rfl, h1, h2, h3, h5, up_move_idle _ h4 h5⟩

/-- A concrete move-mode state whose single contour point is far from the
click, used by the `move_miss_frame` witness. -/
def missState : EditorState :=
  { points := [⟨0, 0⟩]
    history := [[]]
    historyStep := 0
    tool := ToolType.move
    cursorPos := none
    draggingPointIndex := none
    isDrawing := false
    dimensions := ⟨100, 100, 1, 0, 0⟩
    magnifierState := none }

/-- Witness for `move_miss_frame`: a click 90 px away (squared distance
16200) selects nothing and the whole down/move/up sequence commits
nothing. -/
theorem move_miss_frame_witness :
    missState.tool = ToolType.move ∧ missState.draggingPointIndex = none ∧
    (∀ q ∈ missState.points, 900 ≤ hitD2 missState.dimensions 90 90 q) ∧
    handlePointerDown missState 90 90 = missState ∧
    handlePointerUp (runMoves (handlePointerDown missState 90 90) [(50, 50)]) =
      runMoves (handlePointerDown missState 90 90) [(50, 50)] := by
  have hmiss : ∀ q ∈ missState.points, 900 ≤ hitD2 missState.dimensions 90 90 q := by
    intro q hq
    simp only [missState, List.mem_singleton] at hq
    subst hq
    norm_num [hitD2, toScreen, missState]
  obtain ⟨h1, -, -, -, -, h6⟩ := move_miss_frame missState 90 90 [(50, 50)] rfl rfl hmiss
  exact ⟨rfl, rfl, hmiss, h1, h6⟩

end Cutout
